import Mathlib

/-!
Verification of the DTSU666 emulator's register-emulation engine
(`custom_components/dtsu666_emulator/modbus_server.py` and `const.py`),
shallowly embedded in Lean 4.  Physical values are modelled as exact
rationals; Python dictionaries are modelled as association lists with
Python's update semantics (replace in place, append new keys at the end).
-/

namespace DTSU666

/-- Association-list lookup, modelling Python `dict.__getitem__` /
`dict.get` (a dict never holds a key twice, so first match is the match). -/
def dlookup {α : Type} : List (String × α) → String → Option α
  | [], _ => none
  | p :: rest, k => if p.1 = k then some p.2 else dlookup rest k

/-- Association-list insertion, modelling Python `dict.__setitem__`:
replace the existing binding in place, or append a new key at the end. -/
def dset {α : Type} : List (String × α) → String → α → List (String × α)
  | [], k, v => [(k, v)]
  | p :: rest, k, v => if p.1 = k then (k, v) :: rest else p :: dset rest k v

/-- Modelling Python `dict.get(k, default)`. -/
def dget {α : Type} (d : List (String × α)) (k : String) (v₀ : α) : α :=
  (dlookup d k).getD v₀

/-- Key list of an association list (Python `dict.keys()`, in order). -/
def dkeys {α : Type} (d : List (String × α)) : List String :=
  d.map Prod.fst

theorem dlookup_dset_self {α : Type} (d : List (String × α)) (k : String) (v : α) :
    dlookup (dset d k v) k = some v := by
  induction d with
  | nil => simp [dset, dlookup]
  | cons p rest ih =>
      by_cases h : p.1 = k
      · simp [dset, h, dlookup]
      · simp [dset, h, dlookup, ih]

theorem dlookup_dset_ne {α : Type} (d : List (String × α)) {k k' : String} (v : α)
    (h : k' ≠ k) : dlookup (dset d k v) k' = dlookup d k' := by
  induction d with
  | nil => simp [dset, dlookup, Ne.symm h]
  | cons p rest ih =>
      by_cases hp : p.1 = k
      · subst hp
        simp [dset, dlookup, Ne.symm h]
      · simp only [dset, if_neg hp]
        by_cases hp' : p.1 = k'
        · simp [dlookup, hp']
        · simp [dlookup, hp', ih]

theorem dget_dset_self {α : Type} (d : List (String × α)) (k : String) (v v₀ : α) :
    dget (dset d k v) k v₀ = v := by
  simp [dget, dlookup_dset_self]

theorem dget_dset_ne {α : Type} (d : List (String × α)) {k k' : String} (v v₀ : α)
    (h : k' ≠ k) : dget (dset d k v) k' v₀ = dget d k' v₀ := by
  simp [dget, dlookup_dset_ne d v h]

theorem dkeys_dset_of_mem {α : Type} {d : List (String × α)} {k : String} (v : α)
    (h : k ∈ dkeys d) : dkeys (dset d k v) = dkeys d := by
  induction d with
  | nil => simp [dkeys] at h
  | cons p rest ih =>
      by_cases hp : p.1 = k
      · simp [dset, hp, dkeys]
      · have h' : k ∈ dkeys rest := by
          rcases (by simpa [dkeys] using h) with h1 | h1
          · exact absurd h1.symm hp
          · simpa [dkeys] using h1
        simp only [dset, if_neg hp, dkeys, List.map_cons]
        have := ih h'
        simp only [dkeys] at this
        rw [this]

theorem mem_dset {α : Type} {d : List (String × α)} {k : String} {v : α} :
    ∀ p ∈ dset d k v, p ∈ d ∨ p = (k, v) := by
  induction d with
  | nil =>
      intro p hp
      simp [dset] at hp
      simp [hp]
  | cons q rest ih =>
      intro p hp
      by_cases hq : q.1 = k
      · simp only [dset, if_pos hq, List.mem_cons] at hp
        rcases hp with hp | hp
        · right; exact hp
        · left; exact List.mem_cons_of_mem _ hp
      · simp only [dset, if_neg hq, List.mem_cons] at hp
        rcases hp with hp | hp
        · left; exact hp ▸ List.mem_cons_self _ _
        · rcases ih p hp with h1 | h1
          · left; exact List.mem_cons_of_mem _ h1
          · right; exact h1

theorem dlookup_mem {α : Type} {d : List (String × α)} {k : String} {v : α}
    (h : dlookup d k = some v) : (k, v) ∈ d := by
  induction d with
  | nil => simp [dlookup] at h
  | cons p rest ih =>
      by_cases hp : p.1 = k
      · simp only [dlookup, if_pos hp, Option.some.injEq] at h
        have : (k, v) = p := by
          cases p
          simp only [Prod.mk.injEq]
          exact ⟨hp.symm, h.symm⟩
        rw [this]
        exact List.mem_cons_self _ _
      · simp only [dlookup, if_neg hp] at h
        exact List.mem_cons_of_mem _ (ih h)

theorem dlookup_isSome_of_mem_dkeys {α : Type} {d : List (String × α)} {k : String}
    (h : k ∈ dkeys d) : (dlookup d k).isSome = true := by
  induction d with
  | nil => simp [dkeys] at h
  | cons p rest ih =>
      by_cases hp : p.1 = k
      · simp [dlookup, hp]
      · rcases (by simpa [dkeys] using h) with h1 | h1
        · exact absurd h1.symm hp
        · simp only [dlookup, if_neg hp]
          exact ih (by simpa [dkeys] using h1)

theorem mem_dkeys_of_dlookup {α : Type} {d : List (String × α)} {k : String} {v : α}
    (h : dlookup d k = some v) : k ∈ dkeys d := by
  have := dlookup_mem h
  simp only [dkeys, List.mem_map]
  exact ⟨(k, v), this, rfl⟩

/-- One register's catalog data (an entry of `REGISTER_MAP` in `const.py`). -/
structure RegInfo where
  addr : ℕ
  scale : ℚ
  unit : String
deriving DecidableEq

/-- The register catalog, `REGISTER_MAP` from `const.py`, in source order. -/
def REGISTER_MAP : List (String × RegInfo) :=
  [("voltage_l1_l2", ⟨0x1836, 0.1, "V"⟩),
   ("voltage_l2_l3", ⟨0x1838, 0.1, "V"⟩),
   ("voltage_l3_l1", ⟨0x183A, 0.1, "V"⟩),
   ("voltage_l1", ⟨0x183C, 0.1, "V"⟩),
   ("voltage_l2", ⟨0x183E, 0.1, "V"⟩),
   ("voltage_l3", ⟨0x1840, 0.1, "V"⟩),
   ("current_l1", ⟨0x836, 0.001, "A"⟩),
   ("current_l2", ⟨0x838, 0.001, "A"⟩),
   ("current_l3", ⟨0x83A, 0.001, "A"⟩),
   ("current_neutral", ⟨0x83C, 0.001, "A"⟩),
   ("power_l1", ⟨0x84A, 0.001, "kW"⟩),
   ("power_l2", ⟨0x84C, 0.001, "kW"⟩),
   ("power_l3", ⟨0x84E, 0.001, "kW"⟩),
   ("power_total", ⟨0x850, 0.001, "kW"⟩),
   ("reactive_power_l1", ⟨0x852, 0.001, "kVAr"⟩),
   ("reactive_power_l2", ⟨0x854, 0.001, "kVAr"⟩),
   ("reactive_power_l3", ⟨0x856, 0.001, "kVAr"⟩),
   ("reactive_power_total", ⟨0x858, 0.001, "kVAr"⟩),
   ("power_factor_l1", ⟨0x85A, 0.001, ""⟩),
   ("power_factor_l2", ⟨0x85C, 0.001, ""⟩),
   ("power_factor_l3", ⟨0x85E, 0.001, ""⟩),
   ("power_factor_total", ⟨0x860, 0.001, ""⟩),
   ("energy_import_total", ⟨0x862, 0.01, "kWh"⟩),
   ("energy_export_total", ⟨0x864, 0.01, "kWh"⟩),
   ("frequency", ⟨0x866, 0.01, "Hz"⟩)]

/-- `DEFAULT_VALUES` from `const.py`, in source order. -/
def DEFAULT_VALUES : List (String × ℚ) :=
  [("voltage_l1_l2", 400.0),
   ("voltage_l2_l3", 400.0),
   ("voltage_l3_l1", 400.0),
   ("voltage_l1", 230.0),
   ("voltage_l2", 230.0),
   ("voltage_l3", 230.0),
   ("current_l1", 0.0),
   ("current_l2", 0.0),
   ("current_l3", 0.0),
   ("current_neutral", 0.0),
   ("power_l1", 0.0),
   ("power_l2", 0.0),
   ("power_l3", 0.0),
   ("power_total", 0.0),
   ("reactive_power_l1", 0.0),
   ("reactive_power_l2", 0.0),
   ("reactive_power_l3", 0.0),
   ("reactive_power_total", 0.0),
   ("power_factor_l1", 0.95),
   ("power_factor_l2", 0.95),
   ("power_factor_l3", 0.95),
   ("power_factor_total", 0.95),
   ("energy_import_total", 0.0),
   ("energy_export_total", 0.0),
   ("frequency", 50.0)]

/-- `REQUIRED_ENTITIES` from `const.py`. -/
def REQUIRED_ENTITIES : List String :=
  ["power_total", "voltage_l1", "frequency"]

/-- Catalog names, in catalog order. -/
def catalogKeys : List String := dkeys REGISTER_MAP

/-- Default-table names, in table order. -/
def defaultKeys : List String := dkeys DEFAULT_VALUES

/-- Python's `round` on a real number: round half to even (banker's
rounding), as used by `int(round(raw_value))` in `_update_single_register`. -/
def pyRound (q : ℚ) : ℤ :=
  let f := ⌊q⌋
  let r := q - f
  if r < 1/2 then f
  else if 1/2 < r then f + 1
  else if f % 2 = 0 then f else f + 1

/-- The register encoder from `_update_single_register` (lines 280-295 of
`modbus_server.py`): divide by the scale (raw 0 on zero scale), round,
clamp the negative side at -32768 and add 65536, clamp the positive side
at 32767, and mask to 16 bits (Python `x & 0xFFFF` is `x mod 65536`). -/
def encodeWord (scale v : ℚ) : ℕ :=
  let raw : ℚ := if scale ≠ 0 then v / scale else 0
  let r : ℤ := pyRound raw
  let c : ℤ := if r < 0 then 65536 + max (-32768) r else min 32767 r
  (c % 65536).toNat

/-- Modelled from the spec (section 4.4 Register Encoder): raw = value ÷
scale (raw 0 when the scale is zero), round to nearest, clamp to the
signed range [-32768, 32767], represent a negative result as 65536 + raw,
mask to 16 bits.  Stated for comparison with `encodeWord`. -/
def specEncodeWord (scale v : ℚ) : ℕ :=
  let raw : ℚ := if scale = 0 then 0 else v / scale
  let r : ℤ := pyRound raw
  let clamped : ℤ := max (-32768) (min 32767 r)
  let w : ℤ := if clamped < 0 then 65536 + clamped else clamped
  (w % 65536).toNat

theorem raw_branch_eq (scale v : ℚ) :
    (if scale ≠ 0 then v / scale else 0) = (if scale = 0 then 0 else v / scale) := by
  by_cases hs : scale = 0 <;> simp [hs]

theorem clamp_branch_eq (r : ℤ) :
    (if r < 0 then 65536 + max (-32768) r else min 32767 r)
      = (if max (-32768) (min 32767 r) < 0 then 65536 + max (-32768) (min 32767 r)
         else max (-32768) (min 32767 r)) := by
  rcases lt_or_le r 0 with h | h
  · have h1 : min 32767 r = r := min_eq_right (by omega)
    rw [h1, if_pos h, if_pos (by omega : max (-32768) r < 0)]
  · have h1 : max (-32768) (min 32767 r) = min 32767 r := max_eq_right (by omega)
    rw [if_neg (not_lt.mpr h), h1, if_neg (by omega : ¬ min 32767 r < 0)]

theorem encodeWord_eq_specEncodeWord (scale v : ℚ) :
    encodeWord scale v = specEncodeWord scale v := by
  unfold encodeWord specEncodeWord
  simp only [raw_branch_eq, clamp_branch_eq]

/-- The scale recorded in the catalog for a name (0 when absent). -/
def scaleOf (name : String) : ℚ :=
  match dlookup REGISTER_MAP name with
  | some info => info.scale
  | none => 0

/-- The address recorded in the catalog for a name (0 when absent). -/
def addrOf (name : String) : ℕ :=
  match dlookup REGISTER_MAP name with
  | some info => info.addr
  | none => 0

/-- C1: for every catalog register name, the encoder divides by the
catalog scale (raw 0 on a zero scale), rounds to nearest, clamps to
[-32768, 32767], represents negatives as 65536 + raw, and masks to 16
bits; encoding -5.0 at scale 0.001 gives word 60536 and encoding 230.0
at scale 0.1 gives word 2300. -/
theorem C1_encoder_follows_spec (name : String) (v : ℚ)
    (h : name ∈ catalogKeys) :
    encodeWord (scaleOf name) v = specEncodeWord (scaleOf name) v ∧
    encodeWord 0.001 (-5) = 60536 ∧
    encodeWord 0.1 230 = 2300 := by
  refine ⟨encodeWord_eq_specEncodeWord _ _, ?_, ?_⟩
  · norm_num [encodeWord, pyRound]
    decide
  · norm_num [encodeWord, pyRound]
    decide

theorem C1_witness :
    "current_l1" ∈ catalogKeys ∧
    (encodeWord (scaleOf "current_l1") (-5) = specEncodeWord (scaleOf "current_l1") (-5) ∧
     encodeWord 0.001 (-5) = 60536 ∧
     encodeWord 0.1 230 = 2300) := by
  refine ⟨by decide, C1_encoder_follows_spec "current_l1" (-5) (by decide)⟩

/-- The state string of a Home Assistant entity, restricted to the
finite fragment of what the engine inspects: the sentinel strings
"unknown" and "unavailable", any other string `float()` rejects, or a
string parsing as a finite float.  Strings that `float()` accepts as
non-finite values ("inf", "nan", "1e999", ...) are not representable
here; the resolver's behaviour on them is modelled separately by
`StateStr` and `parseFloat` below. -/
inductive StateVal where
  | unknown
  | unavailable
  | nonNumeric
  | numeric (q : ℚ)
deriving DecidableEq

/-- The host state store, `hass.states.get`, over the finite fragment:
entity id to state, `none` when the entity does not exist. -/
def Hass : Type := String → Option StateVal

/-- What `float(state.state)` yields on the finite fragment (`none` on
`ValueError`/`TypeError`); see `parseFloat` for the full behaviour of
the bare `float()` call, which also accepts non-finite values. -/
def parseNum : StateVal → Option ℚ
  | .numeric q => some q
  | _ => none

/-- The value the resolver reads for a mapped source: `none` when the
entity is missing, unavailable/unknown, or non-numeric (lines 359-366 of
`modbus_server.py`). -/
def readVal (hass : Hass) (eid : String) : Option ℚ :=
  match hass eid with
  | none => none
  | some sv =>
      if sv = .unknown ∨ sv = .unavailable then none else parseNum sv

/-- One iteration of the override loop of `_get_all_register_values`
(lines 355-366): skip empty entity ids and names outside the catalog,
overwrite the default only when the source reads as a finite number. -/
def overrideStep (hass : Hass) (d : List (String × ℚ)) (p : String × String) :
    List (String × ℚ) :=
  if p.2 = "" ∨ dlookup REGISTER_MAP p.1 = none then d
  else
    match readVal hass p.2 with
    | some q => dset d p.1 q
    | none => d

/-- Steps 1-2 of `_get_all_register_values` (lines 349-366): seed with the
default table, then overwrite from the mapped entities. -/
def resolveValues (m : List (String × String)) (hass : Hass) : List (String × ℚ) :=
  m.foldl (overrideStep hass) DEFAULT_VALUES

/-- Rational square root modelling Python's `x ** 0.5` in
`_calculate_power_factor`; exact on perfect squares (the only inputs any
theorem below evaluates it on). -/
def sqrtQ (q : ℚ) : ℚ :=
  (Nat.sqrt q.num.toNat : ℚ) / (Nat.sqrt q.den : ℚ)

/-- Shared guard of the derivation pass: set a key only when its current
value (default 0) is zero. -/
def setIfZero (d : List (String × ℚ)) (k : String) (v : ℚ) : List (String × ℚ) :=
  if dget d k 0 = 0 then dset d k v else d

/-- `_calculate_voltage_derivatives` (lines 397-409): line-to-line
voltages get reference × 1.732, remaining phase voltages get the
reference, each only when currently zero. -/
def calcVoltageDerivatives (d : List (String × ℚ)) (ref : ℚ) : List (String × ℚ) :=
  let ll := ref * 1.732
  let d := setIfZero d "voltage_l1_l2" ll
  let d := setIfZero d "voltage_l2_l3" ll
  let d := setIfZero d "voltage_l3_l1" ll
  let d := setIfZero d "voltage_l2" ref
  setIfZero d "voltage_l3" ref

/-- `_calculate_power_derivatives` (lines 411-418): each phase power gets
total ÷ 3 when currently zero. -/
def calcPowerDerivatives (d : List (String × ℚ)) (tp : ℚ) : List (String × ℚ) :=
  let pp := tp / 3
  let d := setIfZero d "power_l1" pp
  let d := setIfZero d "power_l2" pp
  setIfZero d "power_l3" pp

/-- One phase of `_calculate_currents` (lines 420-432): current = power ×
1000 ÷ voltage when power and voltage are positive and the current is
still zero. -/
def calcCurrentPhase (d : List (String × ℚ)) (ph : String) : List (String × ℚ) :=
  let p := dget d ("power_" ++ ph) 0
  let v := dget d ("voltage_" ++ ph) 0
  if 0 < p ∧ 0 < v ∧ dget d ("current_" ++ ph) 0 = 0 then
    dset d ("current_" ++ ph) (p * 1000 / v)
  else d

/-- `_calculate_currents` over the three phases, in source order. -/
def calcCurrents (d : List (String × ℚ)) : List (String × ℚ) :=
  calcCurrentPhase (calcCurrentPhase (calcCurrentPhase d "l1") "l2") "l3"

/-- `_calculate_power_factor` (lines 434-447): derive the total power
factor from active and reactive power, only when active power is positive
and the stored power factor is zero. -/
def calcPowerFactor (d : List (String × ℚ)) : List (String × ℚ) :=
  let a := dget d "power_total" 0
  let r := dget d "reactive_power_total" 0
  if 0 < a ∧ dget d "power_factor_total" 0 = 0 then
    if r ≠ 0 then
      let ap := sqrtQ (a ^ 2 + r ^ 2)
      if 0 < ap then dset d "power_factor_total" (min 1 (|a| / ap))
      else dset d "power_factor_total" 1
    else dset d "power_factor_total" 1
  else d

/-- The voltage step of `_calculate_derived_values` (lines 378, 382-383):
the reference voltage is read from the incoming values before any
mutation, and the voltage derivation only runs when it is positive. -/
def deriveStage1 (values : List (String × ℚ)) : List (String × ℚ) :=
  if 0 < dget values "voltage_l1" 0 then
    calcVoltageDerivatives values (dget values "voltage_l1" 0)
  else values

/-- The power step of `_calculate_derived_values` (lines 379, 386-387):
total power is read from the incoming values before any mutation, and the
power derivation only runs when it is positive. -/
def deriveStage2 (values d : List (String × ℚ)) : List (String × ℚ) :=
  if 0 < dget values "power_total" 0 then
    calcPowerDerivatives d (dget values "power_total" 0)
  else d

/-- `_calculate_derived_values` (lines 373-395): read the reference
voltage and total power first, then run the four derivation passes in
source order. -/
def calcDerivedValues (values : List (String × ℚ)) : List (String × ℚ) :=
  calcPowerFactor (calcCurrents (deriveStage2 values (deriveStage1 values)))

/-- `_get_all_register_values` (lines 347-371): defaults, overrides, then
the derivation pass. -/
def getAllRegisterValues (m : List (String × String)) (hass : Hass) :
    List (String × ℚ) :=
  calcDerivedValues (resolveValues m hass)

theorem defaultKeys_eq_catalogKeys : defaultKeys = catalogKeys := by decide

theorem dkeys_setIfZero {d : List (String × ℚ)} {k : String} (v : ℚ)
    (hd : dkeys d = defaultKeys) (hk : k ∈ defaultKeys) :
    dkeys (setIfZero d k v) = defaultKeys := by
  unfold setIfZero
  split
  · rw [dkeys_dset_of_mem _ (hd.symm ▸ hk), hd]
  · exact hd

theorem dkeys_calcVoltageDerivatives {d : List (String × ℚ)} (ref : ℚ)
    (hd : dkeys d = defaultKeys) :
    dkeys (calcVoltageDerivatives d ref) = defaultKeys := by
  unfold calcVoltageDerivatives
  exact dkeys_setIfZero _
    (dkeys_setIfZero _
      (dkeys_setIfZero _
        (dkeys_setIfZero _
          (dkeys_setIfZero _ hd (by decide)) (by decide)) (by decide)) (by decide))
    (by decide)

theorem dkeys_calcPowerDerivatives {d : List (String × ℚ)} (tp : ℚ)
    (hd : dkeys d = defaultKeys) :
    dkeys (calcPowerDerivatives d tp) = defaultKeys := by
  unfold calcPowerDerivatives
  exact dkeys_setIfZero _
    (dkeys_setIfZero _ (dkeys_setIfZero _ hd (by decide)) (by decide)) (by decide)

theorem dkeys_calcCurrentPhase {d : List (String × ℚ)} {ph : String}
    (hd : dkeys d = defaultKeys) (hk : ("current_" ++ ph) ∈ defaultKeys) :
    dkeys (calcCurrentPhase d ph) = defaultKeys := by
  simp only [calcCurrentPhase]
  split
  · rw [dkeys_dset_of_mem _ (hd.symm ▸ hk), hd]
  · exact hd

theorem dkeys_calcCurrents {d : List (String × ℚ)}
    (hd : dkeys d = defaultKeys) : dkeys (calcCurrents d) = defaultKeys := by
  unfold calcCurrents
  exact dkeys_calcCurrentPhase
    (dkeys_calcCurrentPhase (dkeys_calcCurrentPhase hd (by decide)) (by decide))
    (by decide)

theorem dkeys_calcPowerFactor {d : List (String × ℚ)}
    (hd : dkeys d = defaultKeys) : dkeys (calcPowerFactor d) = defaultKeys := by
  simp only [calcPowerFactor]
  split
  · split
    · split
      · rw [dkeys_dset_of_mem _ (hd.symm ▸ (by decide : "power_factor_total" ∈ defaultKeys)), hd]
      · rw [dkeys_dset_of_mem _ (hd.symm ▸ (by decide : "power_factor_total" ∈ defaultKeys)), hd]
    · rw [dkeys_dset_of_mem _ (hd.symm ▸ (by decide : "power_factor_total" ∈ defaultKeys)), hd]
  · exact hd

theorem dkeys_deriveStage1 {d : List (String × ℚ)}
    (hd : dkeys d = defaultKeys) : dkeys (deriveStage1 d) = defaultKeys := by
  unfold deriveStage1
  split
  · exact dkeys_calcVoltageDerivatives _ hd
  · exact hd

theorem dkeys_deriveStage2 {values d : List (String × ℚ)}
    (hd : dkeys d = defaultKeys) : dkeys (deriveStage2 values d) = defaultKeys := by
  unfold deriveStage2
  split
  · exact dkeys_calcPowerDerivatives _ hd
  · exact hd

theorem dkeys_calcDerivedValues {d : List (String × ℚ)}
    (hd : dkeys d = defaultKeys) : dkeys (calcDerivedValues d) = defaultKeys := by
  unfold calcDerivedValues
  exact dkeys_calcPowerFactor (dkeys_calcCurrents (dkeys_deriveStage2 (dkeys_deriveStage1 hd)))

theorem dkeys_overrideStep (hass : Hass) {d : List (String × ℚ)}
    (p : String × String) (hd : dkeys d = defaultKeys) :
    dkeys (overrideStep hass d p) = defaultKeys := by
  unfold overrideStep
  split
  · exact hd
  · rename_i hcond
    cases hrv : readVal hass p.2 with
    | none => exact hd
    | some q =>
        have hmem : p.1 ∈ catalogKeys := by
          rcases Option.ne_none_iff_exists.mp (fun hn => hcond (Or.inr hn)) with ⟨info, hinfo⟩
          exact mem_dkeys_of_dlookup hinfo.symm
        rw [dkeys_dset_of_mem _
          (hd.symm ▸ (defaultKeys_eq_catalogKeys ▸ hmem)), hd]

theorem dkeys_foldl_override (hass : Hass) :
    ∀ (m : List (String × String)) (d : List (String × ℚ)),
    dkeys d = defaultKeys →
    dkeys (List.foldl (overrideStep hass) d m) = defaultKeys := by
  intro m
  induction m with
  | nil => intro d hd; simpa using hd
  | cons p rest ih =>
      intro d hd
      simp only [List.foldl_cons]
      exact ih _ (dkeys_overrideStep hass p hd)

theorem dkeys_resolveValues (m : List (String × String)) (hass : Hass) :
    dkeys (resolveValues m hass) = defaultKeys :=
  dkeys_foldl_override hass m DEFAULT_VALUES rfl

theorem dkeys_getAllRegisterValues (m : List (String × String)) (hass : Hass) :
    dkeys (getAllRegisterValues m hass) = defaultKeys :=
  dkeys_calcDerivedValues (dkeys_resolveValues m hass)

/-- The value claimed for a resolved catalog name, relative to a seed
dictionary `d`: the seed value, overwritten only when the name is mapped
to a nonempty source that is available and parses as a finite number. -/
def resolvedSpecFrom (d : List (String × ℚ)) (m : List (String × String))
    (hass : Hass) (name : String) : Option ℚ :=
  match dlookup m name with
  | none => dlookup d name
  | some eid =>
      if eid = "" then dlookup d name
      else
        match readVal hass eid with
        | some q => some q
        | none => dlookup d name

/-- The claimed resolver output: the default, overwritten only by an
available, numeric mapped source. -/
def resolvedSpec (m : List (String × String)) (hass : Hass) (name : String) :
    Option ℚ :=
  resolvedSpecFrom DEFAULT_VALUES m hass name

theorem dlookup_overrideStep_ne (hass : Hass) {d : List (String × ℚ)}
    {p : String × String} {name : String} (hp : p.1 ≠ name) :
    dlookup (overrideStep hass d p) name = dlookup d name := by
  unfold overrideStep
  split
  · rfl
  · cases hrv : readVal hass p.2 with
    | none => rfl
    | some q => exact dlookup_dset_ne d q (Ne.symm hp)

theorem foldl_override_untouched (hass : Hass) {name : String} :
    ∀ (m : List (String × String)) (d : List (String × ℚ)),
    (∀ p ∈ m, p.1 ≠ name) →
    dlookup (List.foldl (overrideStep hass) d m) name = dlookup d name := by
  intro m
  induction m with
  | nil => intro d _; rfl
  | cons p rest ih =>
      intro d h
      simp only [List.foldl_cons]
      rw [ih _ (fun q hq => h q (List.mem_cons_of_mem _ hq))]
      exact dlookup_overrideStep_ne hass (h p (List.mem_cons_self _ _))

theorem foldl_override_lookup (hass : Hass) {name : String}
    (hname : name ∈ catalogKeys) :
    ∀ (m : List (String × String)) (d : List (String × ℚ)),
    (dkeys m).Nodup →
    dlookup (List.foldl (overrideStep hass) d m) name =
      resolvedSpecFrom d m hass name := by
  intro m
  induction m with
  | nil => intro d _; simp [resolvedSpecFrom, dlookup]
  | cons p rest ih =>
      intro d hnd
      rw [show dkeys (p :: rest) = p.1 :: dkeys rest from rfl, List.nodup_cons] at hnd
      obtain ⟨hnd1, hnd2⟩ := hnd
      by_cases hp : p.1 = name
      · have hrest : ∀ q ∈ rest, q.1 ≠ name := by
          intro q hq hqname
          apply hnd1
          rw [hp, ← hqname]
          exact List.mem_map.mpr ⟨q, hq, rfl⟩
        simp only [List.foldl_cons]
        rw [foldl_override_untouched hass rest _ hrest]
        unfold resolvedSpecFrom
        simp only [dlookup, if_pos hp]
        unfold overrideStep
        by_cases he : p.2 = ""
        · rw [if_pos (Or.inl he), if_pos he]
        · have hlook : ¬ dlookup REGISTER_MAP p.1 = none := by
            rw [hp]
            intro hn
            have := dlookup_isSome_of_mem_dkeys (d := REGISTER_MAP) hname
            rw [hn] at this
            exact absurd this (by simp)
          rw [if_neg (by
            intro hor
            rcases hor with h1 | h1
            · exact he h1
            · exact hlook h1), if_neg he]
          cases hrv : readVal hass p.2 with
          | none => rfl
          | some q => rw [← hp]; exact dlookup_dset_self d p.1 q
      · simp only [List.foldl_cons]
        rw [ih _ hnd2]
        unfold resolvedSpecFrom
        simp only [dlookup, if_neg hp]
        simp only [dlookup_overrideStep_ne hass hp]

theorem dlookup_resolveValues_eq (m : List (String × String)) (hass : Hass)
    {name : String} (hname : name ∈ catalogKeys) (hnd : (dkeys m).Nodup) :
    dlookup (resolveValues m hass) name = resolvedSpec m hass name :=
  foldl_override_lookup hass hname m DEFAULT_VALUES hnd

/-- Result of Python `float(s)` when it succeeds: a finite rational, or
one of the non-finite floats that `float()` also accepts ("inf", "-inf",
"nan", overflowing literals such as "1e999").  The source performs no
finiteness check. -/
inductive PyFloat where
  | finite (q : ℚ)
  | posInf
  | negInf
  | nan
deriving DecidableEq

/-- The state string of an entity over the full float domain: the
sentinels, a string `float()` rejects, or a string `float()` accepts —
finite or not. -/
inductive StateStr where
  | unknown
  | unavailable
  | nonNumeric
  | numeric (x : PyFloat)
deriving DecidableEq

/-- The host state store over the full state-string abstraction. -/
def HassF : Type := String → Option StateStr

/-- The bare `float(state.state)` call at line 362 of `modbus_server.py`:
it succeeds on any numeric string, finite or non-finite, with no
finiteness check. -/
def parseFloat : StateStr → Option PyFloat
  | .numeric x => some x
  | _ => none

/-- `readVal` over the full float domain (lines 359-366). -/
def readValF (hass : HassF) (eid : String) : Option PyFloat :=
  match hass eid with
  | none => none
  | some sv =>
      if sv = .unknown ∨ sv = .unavailable then none else parseFloat sv

/-- The override loop iteration (lines 355-366) over the full float
domain: any successful `float()` parse, finite or not, overwrites the
default. -/
def overrideStepF (hass : HassF) (d : List (String × PyFloat)) (p : String × String) :
    List (String × PyFloat) :=
  if p.2 = "" ∨ dlookup REGISTER_MAP p.1 = none then d
  else
    match readValF hass p.2 with
    | some x => dset d p.1 x
    | none => d

/-- The default table, injected into the full float domain (all defaults
are finite). -/
def DEFAULT_VALUES_F : List (String × PyFloat) :=
  DEFAULT_VALUES.map (fun p => (p.1, PyFloat.finite p.2))

/-- Steps 1-2 of `_get_all_register_values` over the full float domain. -/
def resolveValuesF (m : List (String × String)) (hass : HassF) :
    List (String × PyFloat) :=
  m.foldl (overrideStepF hass) DEFAULT_VALUES_F

/-- The resolved value of a catalog name over the full float domain,
relative to a seed dictionary: the seed value, overwritten whenever the
name is mapped to a nonempty source that is available and that `float()`
parses at all — finite or not. -/
def resolvedSpecFromF (d : List (String × PyFloat)) (m : List (String × String))
    (hass : HassF) (name : String) : Option PyFloat :=
  match dlookup m name with
  | none => dlookup d name
  | some eid =>
      if eid = "" then dlookup d name
      else
        match readValF hass eid with
        | some x => some x
        | none => dlookup d name

/-- The claimed resolver output over the full float domain. -/
def resolvedSpecF (m : List (String × String)) (hass : HassF) (name : String) :
    Option PyFloat :=
  resolvedSpecFromF DEFAULT_VALUES_F m hass name

theorem dkeys_DEFAULT_VALUES_F : dkeys DEFAULT_VALUES_F = defaultKeys := by
  simp [DEFAULT_VALUES_F, dkeys, defaultKeys, List.map_map, Function.comp]

theorem dkeys_overrideStepF (hass : HassF) {d : List (String × PyFloat)}
    (p : String × String) (hd : dkeys d = defaultKeys) :
    dkeys (overrideStepF hass d p) = defaultKeys := by
  unfold overrideStepF
  split
  · exact hd
  · rename_i hcond
    cases hrv : readValF hass p.2 with
    | none => exact hd
    | some x =>
        have hmem : p.1 ∈ catalogKeys := by
          rcases Option.ne_none_iff_exists.mp (fun hn => hcond (Or.inr hn)) with ⟨info, hinfo⟩
          exact mem_dkeys_of_dlookup hinfo.symm
        rw [dkeys_dset_of_mem _
          (hd.symm ▸ (defaultKeys_eq_catalogKeys ▸ hmem)), hd]

theorem dkeys_resolveValuesF (m : List (String × String)) (hass : HassF) :
    dkeys (resolveValuesF m hass) = defaultKeys := by
  unfold resolveValuesF
  have hstep : ∀ (l : List (String × String)) (d : List (String × PyFloat)),
      dkeys d = defaultKeys →
      dkeys (List.foldl (overrideStepF hass) d l) = defaultKeys := by
    intro l
    induction l with
    | nil => intro d hd; simpa using hd
    | cons p rest ih =>
        intro d hd
        simp only [List.foldl_cons]
        exact ih _ (dkeys_overrideStepF hass p hd)
  exact hstep m DEFAULT_VALUES_F dkeys_DEFAULT_VALUES_F

theorem dlookup_overrideStepF_ne (hass : HassF) {d : List (String × PyFloat)}
    {p : String × String} {name : String} (hp : p.1 ≠ name) :
    dlookup (overrideStepF hass d p) name = dlookup d name := by
  unfold overrideStepF
  split
  · rfl
  · cases hrv : readValF hass p.2 with
    | none => rfl
    | some x => exact dlookup_dset_ne d x (Ne.symm hp)

theorem foldl_overrideF_untouched (hass : HassF) {name : String} :
    ∀ (m : List (String × String)) (d : List (String × PyFloat)),
    (∀ p ∈ m, p.1 ≠ name) →
    dlookup (List.foldl (overrideStepF hass) d m) name = dlookup d name := by
  intro m
  induction m with
  | nil => intro d _; rfl
  | cons p rest ih =>
      intro d h
      simp only [List.foldl_cons]
      rw [ih _ (fun q hq => h q (List.mem_cons_of_mem _ hq))]
      exact dlookup_overrideStepF_ne hass (h p (List.mem_cons_self _ _))

theorem foldl_overrideF_lookup (hass : HassF) {name : String}
    (hname : name ∈ catalogKeys) :
    ∀ (m : List (String × String)) (d : List (String × PyFloat)),
    (dkeys m).Nodup →
    dlookup (List.foldl (overrideStepF hass) d m) name =
      resolvedSpecFromF d m hass name := by
  intro m
  induction m with
  | nil => intro d _; simp [resolvedSpecFromF, dlookup]
  | cons p rest ih =>
      intro d hnd
      rw [show dkeys (p :: rest) = p.1 :: dkeys rest from rfl, List.nodup_cons] at hnd
      obtain ⟨hnd1, hnd2⟩ := hnd
      by_cases hp : p.1 = name
      · have hrest : ∀ q ∈ rest, q.1 ≠ name := by
          intro q hq hqname
          apply hnd1
          rw [hp, ← hqname]
          exact List.mem_map.mpr ⟨q, hq, rfl⟩
        simp only [List.foldl_cons]
        rw [foldl_overrideF_untouched hass rest _ hrest]
        unfold resolvedSpecFromF
        simp only [dlookup, if_pos hp]
        unfold overrideStepF
        by_cases he : p.2 = ""
        · rw [if_pos (Or.inl he), if_pos he]
        · have hlook : ¬ dlookup REGISTER_MAP p.1 = none := by
            rw [hp]
            intro hn
            have := dlookup_isSome_of_mem_dkeys (d := REGISTER_MAP) hname
            rw [hn] at this
            exact absurd this (by simp)
          rw [if_neg (by
            intro hor
            rcases hor with h1 | h1
            · exact he h1
            · exact hlook h1), if_neg he]
          cases hrv : readValF hass p.2 with
          | none => rfl
          | some x => rw [← hp]; exact dlookup_dset_self d p.1 x
      · simp only [List.foldl_cons]
        rw [ih _ hnd2]
        unfold resolvedSpecFromF
        simp only [dlookup, if_neg hp]
        simp only [dlookup_overrideStepF_ne hass hp]

/-- C4 (amended): over the full float domain, the resolver output covers
exactly the catalog names (never partial), and each catalog name resolves
to its default, overwritten by the mapped source's parsed value whenever
that source is available and `float()` parses its state at all — a parse
that may yield a non-finite value, since the bare `float()` call performs
no finiteness check. -/
theorem C4_resolver_total_and_float_overrides (m : List (String × String))
    (hass : HassF) (hnd : (dkeys m).Nodup) :
    dkeys (resolveValuesF m hass) = defaultKeys ∧
    (∀ k, k ∈ defaultKeys ↔ k ∈ catalogKeys) ∧
    (∀ name ∈ catalogKeys,
      dlookup (resolveValuesF m hass) name = resolvedSpecF m hass name) ∧
    (∀ name ∈ catalogKeys,
      (dlookup (resolveValuesF m hass) name).isSome = true) := by
  refine ⟨dkeys_resolveValuesF m hass, ?_, ?_, ?_⟩
  · intro k
    rw [defaultKeys_eq_catalogKeys]
  · intro name hname
    exact foldl_overrideF_lookup hass hname m DEFAULT_VALUES_F hnd
  · intro name hname
    apply dlookup_isSome_of_mem_dkeys
    rw [dkeys_resolveValuesF m hass, defaultKeys_eq_catalogKeys]
    exact hname

/-- An empty host state store: every entity id is missing. -/
def hassEmpty : Hass := fun _ => none

/-- A concrete mapping of the three required measurements. -/
def mHealthy : List (String × String) :=
  [("power_total", "sensor.pt"), ("voltage_l1", "sensor.v1"), ("frequency", "sensor.f")]

/-- A host state store in which the three mapped sources read 9, 230 and 50. -/
def hassHealthy : Hass := fun eid =>
  if eid = "sensor.pt" then some (.numeric 9)
  else if eid = "sensor.v1" then some (.numeric 230)
  else if eid = "sensor.f" then some (.numeric 50)
  else none

/-- A host state store in which the mapped voltage source is unavailable. -/
def hassDown : Hass := fun eid =>
  if eid = "sensor.pt" then some (.numeric 9)
  else if eid = "sensor.v1" then some .unavailable
  else if eid = "sensor.f" then some (.numeric 50)
  else none

/-- A mapping of the total power to a source whose state string `float()`
parses as positive infinity. -/
def mInf : List (String × String) := [("power_total", "sensor.inf")]

/-- A host state store in which the mapped source's state string is
"inf": available, and accepted by the bare `float()` call as a
non-finite value. -/
def hassInf : HassF := fun eid =>
  if eid = "sensor.inf" then some (.numeric PyFloat.posInf) else none

/-- C4 (counterexample): a mapped source whose state string is "inf" is
available and its `float()` parse succeeds but is not finite, so by the
claim the default (0) should be kept; the code instead overwrites the
default with the non-finite value. -/
theorem C4_counterexample :
    dlookup DEFAULT_VALUES_F "power_total" = some (PyFloat.finite 0) ∧
    dlookup (resolveValuesF mInf hassInf) "power_total" = some PyFloat.posInf ∧
    PyFloat.posInf ≠ PyFloat.finite 0 := by
  refine ⟨?_, ?_, by simp⟩
  · norm_num +decide [DEFAULT_VALUES_F, DEFAULT_VALUES, dlookup]
  · norm_num +decide [resolveValuesF, overrideStepF, readValF, parseFloat, mInf,
      hassInf, DEFAULT_VALUES_F, DEFAULT_VALUES, REGISTER_MAP, dset, dlookup]

theorem C4_witness :
    dkeys (resolveValuesF mInf hassInf) = defaultKeys ∧
    dlookup (resolveValuesF mInf hassInf) "power_total" =
      resolvedSpecF mInf hassInf "power_total" ∧
    (dlookup (resolveValuesF mInf hassInf) "power_total").isSome = true := by
  have h := C4_resolver_total_and_float_overrides mInf hassInf (by decide)
  exact ⟨h.1, h.2.2.1 "power_total" (by decide), h.2.2.2 "power_total" (by decide)⟩

theorem dget_setIfZero_ne {d : List (String × ℚ)} {k k' : String} {v : ℚ}
    (h : k' ≠ k) : dget (setIfZero d k v) k' 0 = dget d k' 0 := by
  unfold setIfZero
  split
  · exact dget_dset_ne d v 0 h
  · rfl

theorem dget_setIfZero_self {d : List (String × ℚ)} {k : String} {v : ℚ}
    (h : dget d k 0 = 0) : dget (setIfZero d k v) k 0 = v := by
  unfold setIfZero
  rw [if_pos h]
  exact dget_dset_self d k v 0

theorem dget_setIfZero_skip {d : List (String × ℚ)} {k : String} {v : ℚ}
    (h : dget d k 0 ≠ 0) : dget (setIfZero d k v) k 0 = dget d k 0 := by
  unfold setIfZero
  rw [if_neg h]

theorem dget_calcVoltageDerivatives_ne {d : List (String × ℚ)} {ref : ℚ} {k : String}
    (h1 : k ≠ "voltage_l1_l2") (h2 : k ≠ "voltage_l2_l3") (h3 : k ≠ "voltage_l3_l1")
    (h4 : k ≠ "voltage_l2") (h5 : k ≠ "voltage_l3") :
    dget (calcVoltageDerivatives d ref) k 0 = dget d k 0 := by
  unfold calcVoltageDerivatives
  rw [dget_setIfZero_ne h5, dget_setIfZero_ne h4, dget_setIfZero_ne h3,
    dget_setIfZero_ne h2, dget_setIfZero_ne h1]

theorem dget_calcPowerDerivatives_ne {d : List (String × ℚ)} {tp : ℚ} {k : String}
    (h1 : k ≠ "power_l1") (h2 : k ≠ "power_l2") (h3 : k ≠ "power_l3") :
    dget (calcPowerDerivatives d tp) k 0 = dget d k 0 := by
  unfold calcPowerDerivatives
  rw [dget_setIfZero_ne h3, dget_setIfZero_ne h2, dget_setIfZero_ne h1]

theorem dget_calcCurrentPhase_ne {d : List (String × ℚ)} {ph k : String}
    (h : k ≠ "current_" ++ ph) : dget (calcCurrentPhase d ph) k 0 = dget d k 0 := by
  simp only [calcCurrentPhase]
  split
  · exact dget_dset_ne d _ 0 h
  · rfl

theorem dget_calcCurrents_ne {d : List (String × ℚ)} {k : String}
    (h1 : k ≠ "current_" ++ "l1") (h2 : k ≠ "current_" ++ "l2")
    (h3 : k ≠ "current_" ++ "l3") :
    dget (calcCurrents d) k 0 = dget d k 0 := by
  unfold calcCurrents
  rw [dget_calcCurrentPhase_ne h3, dget_calcCurrentPhase_ne h2, dget_calcCurrentPhase_ne h1]

theorem dget_calcPowerFactor_ne {d : List (String × ℚ)} {k : String}
    (h : k ≠ "power_factor_total") : dget (calcPowerFactor d) k 0 = dget d k 0 := by
  simp only [calcPowerFactor]
  split
  · split
    · split
      · exact dget_dset_ne d _ 0 h
      · exact dget_dset_ne d _ 0 h
    · exact dget_dset_ne d _ 0 h
  · rfl

theorem calcPowerFactor_skip {d : List (String × ℚ)}
    (h : dget d "power_factor_total" 0 ≠ 0) : calcPowerFactor d = d := by
  simp only [calcPowerFactor]
  rw [if_neg (fun hc => h hc.2)]

theorem dget_deriveStage1_ne {values : List (String × ℚ)} {k : String}
    (h1 : k ≠ "voltage_l1_l2") (h2 : k ≠ "voltage_l2_l3") (h3 : k ≠ "voltage_l3_l1")
    (h4 : k ≠ "voltage_l2") (h5 : k ≠ "voltage_l3") :
    dget (deriveStage1 values) k 0 = dget values k 0 := by
  unfold deriveStage1
  split
  · exact dget_calcVoltageDerivatives_ne h1 h2 h3 h4 h5
  · rfl

theorem dget_deriveStage2_ne {values d : List (String × ℚ)} {k : String}
    (h1 : k ≠ "power_l1") (h2 : k ≠ "power_l2") (h3 : k ≠ "power_l3") :
    dget (deriveStage2 values d) k 0 = dget d k 0 := by
  unfold deriveStage2
  split
  · exact dget_calcPowerDerivatives_ne h1 h2 h3
  · rfl

theorem dget_calcVoltageDerivatives_set (d : List (String × ℚ)) (ref : ℚ) :
    (dget d "voltage_l1_l2" 0 = 0 →
      dget (calcVoltageDerivatives d ref) "voltage_l1_l2" 0 = ref * 1.732) ∧
    (dget d "voltage_l2_l3" 0 = 0 →
      dget (calcVoltageDerivatives d ref) "voltage_l2_l3" 0 = ref * 1.732) ∧
    (dget d "voltage_l3_l1" 0 = 0 →
      dget (calcVoltageDerivatives d ref) "voltage_l3_l1" 0 = ref * 1.732) := by
  unfold calcVoltageDerivatives
  refine ⟨?_, ?_, ?_⟩
  · intro h
    rw [dget_setIfZero_ne (by decide), dget_setIfZero_ne (by decide),
      dget_setIfZero_ne (by decide), dget_setIfZero_ne (by decide),
      dget_setIfZero_self h]
  · intro h
    rw [dget_setIfZero_ne (by decide), dget_setIfZero_ne (by decide),
      dget_setIfZero_ne (by decide),
      dget_setIfZero_self (by rw [dget_setIfZero_ne (by decide)]; exact h)]
  · intro h
    rw [dget_setIfZero_ne (by decide), dget_setIfZero_ne (by decide),
      dget_setIfZero_self (by
        rw [dget_setIfZero_ne (by decide), dget_setIfZero_ne (by decide)]
        exact h)]

/-- C2 (amended): the derivation pass sets a line-to-line voltage to
reference × 1.732 only when that voltage's resolved value is zero; a
voltage already nonzero (in particular the unmapped default 400.0) is
left unchanged. -/
theorem C2_ll_derivation_when_zero (d : List (String × ℚ))
    (href : 0 < dget d "voltage_l1" 0) :
    (dget d "voltage_l1_l2" 0 = 0 →
      dget (calcDerivedValues d) "voltage_l1_l2" 0 = dget d "voltage_l1" 0 * 1.732) ∧
    (dget d "voltage_l2_l3" 0 = 0 →
      dget (calcDerivedValues d) "voltage_l2_l3" 0 = dget d "voltage_l1" 0 * 1.732) ∧
    (dget d "voltage_l3_l1" 0 = 0 →
      dget (calcDerivedValues d) "voltage_l3_l1" 0 = dget d "voltage_l1" 0 * 1.732) := by
  have hs1 : deriveStage1 d = calcVoltageDerivatives d (dget d "voltage_l1" 0) := by
    unfold deriveStage1
    rw [if_pos href]
  refine ⟨?_, ?_, ?_⟩
  · intro h
    unfold calcDerivedValues
    rw [dget_calcPowerFactor_ne (by decide),
      dget_calcCurrents_ne (by decide) (by decide) (by decide),
      dget_deriveStage2_ne (by decide) (by decide) (by decide), hs1,
      (dget_calcVoltageDerivatives_set d _).1 h]
  · intro h
    unfold calcDerivedValues
    rw [dget_calcPowerFactor_ne (by decide),
      dget_calcCurrents_ne (by decide) (by decide) (by decide),
      dget_deriveStage2_ne (by decide) (by decide) (by decide), hs1,
      (dget_calcVoltageDerivatives_set d _).2.1 h]
  · intro h
    unfold calcDerivedValues
    rw [dget_calcPowerFactor_ne (by decide),
      dget_calcCurrents_ne (by decide) (by decide) (by decide),
      dget_deriveStage2_ne (by decide) (by decide) (by decide), hs1,
      (dget_calcVoltageDerivatives_set d _).2.2 h]

/-- C2 (counterexample): with no mapping at all, the reference voltage
resolves to the default 230 and no line-to-line voltage source is mapped,
yet the resolved line-to-line voltage is the default 400.0, not
230 × 1.732 = 398.36 as the claim asserts. -/
theorem C2_counterexample :
    dget (resolveValues [] hassEmpty) "voltage_l1" 0 = 230 ∧
    dget (getAllRegisterValues [] hassEmpty) "voltage_l1_l2" 0 = 400 ∧
    (230 : ℚ) * 1.732 = 398.36 ∧
    (400 : ℚ) ≠ 398.36 := by
  have h0 : resolveValues [] hassEmpty = DEFAULT_VALUES := rfl
  have href : dget DEFAULT_VALUES "voltage_l1" 0 = 230 := by
    norm_num +decide [DEFAULT_VALUES, dget, dlookup]
  have h400 : dget DEFAULT_VALUES "voltage_l1_l2" 0 = 400 := by
    norm_num +decide [DEFAULT_VALUES, dget, dlookup]
  refine ⟨h0 ▸ href, ?_, by norm_num, by norm_num⟩
  unfold getAllRegisterValues
  rw [h0]
  unfold calcDerivedValues
  rw [dget_calcPowerFactor_ne (by decide),
    dget_calcCurrents_ne (by decide) (by decide) (by decide),
    dget_deriveStage2_ne (by decide) (by decide) (by decide)]
  unfold deriveStage1
  rw [if_pos (by rw [href]; norm_num)]
  unfold calcVoltageDerivatives
  rw [dget_setIfZero_ne (by decide), dget_setIfZero_ne (by decide),
    dget_setIfZero_ne (by decide), dget_setIfZero_ne (by decide),
    dget_setIfZero_skip (by rw [h400]; norm_num), h400]

/-- A value set with only the reference voltage present: every other
lookup falls back to 0. -/
def dOnlyRef : List (String × ℚ) := [("voltage_l1", 230)]

theorem C2_witness :
    0 < dget dOnlyRef "voltage_l1" 0 ∧
    dget dOnlyRef "voltage_l1_l2" 0 = 0 ∧
    dget (calcDerivedValues dOnlyRef) "voltage_l1_l2" 0 = 398.36 := by
  have href : dget dOnlyRef "voltage_l1" 0 = 230 := by
    norm_num +decide [dOnlyRef, dget, dlookup]
  have hz : dget dOnlyRef "voltage_l1_l2" 0 = 0 := by
    norm_num +decide [dOnlyRef, dget, dlookup]
  have h := (C2_ll_derivation_when_zero dOnlyRef (by rw [href]; norm_num)).1 hz
  refine ⟨by rw [href]; norm_num, hz, ?_⟩
  rw [h, href]
  norm_num

theorem dget_calcPowerFactor_formula (d : List (String × ℚ))
    (ha : 0 < dget d "power_total" 0) (hpf : dget d "power_factor_total" 0 = 0) :
    dget (calcPowerFactor d) "power_factor_total" 0 =
      (if dget d "reactive_power_total" 0 ≠ 0 then
        (if 0 < sqrtQ ((dget d "power_total" 0) ^ 2 + (dget d "reactive_power_total" 0) ^ 2)
         then min 1 (|dget d "power_total" 0| /
           sqrtQ ((dget d "power_total" 0) ^ 2 + (dget d "reactive_power_total" 0) ^ 2))
         else 1)
       else 1) := by
  simp only [calcPowerFactor]
  rw [if_pos ⟨ha, hpf⟩]
  by_cases hr : dget d "reactive_power_total" 0 ≠ 0
  · rw [if_pos hr, if_pos hr]
    by_cases hap :
        0 < sqrtQ ((dget d "power_total" 0) ^ 2 + (dget d "reactive_power_total" 0) ^ 2)
    · rw [if_pos hap, if_pos hap]
      exact dget_dset_self d _ _ 0
    · rw [if_neg hap, if_neg hap]
      exact dget_dset_self d _ _ 0
  · rw [if_neg hr, if_neg hr]
    exact dget_dset_self d _ _ 0

/-- C3 (amended): the derivation pass sets the total power factor to
min(1, |active| ÷ √(active² + reactive²)) (1.0 when reactive power is
zero, or when the computed apparent power is not positive) only when the
resolved power factor is zero and active power is positive; a nonzero
resolved power factor (in particular the unmapped default 0.95) blocks
the derivation. -/
theorem C3_power_factor_derivation_when_zero (d : List (String × ℚ))
    (ha : 0 < dget d "power_total" 0)
    (hpf : dget d "power_factor_total" 0 = 0) :
    dget (calcDerivedValues d) "power_factor_total" 0 =
      (if dget d "reactive_power_total" 0 ≠ 0 then
        (if 0 < sqrtQ ((dget d "power_total" 0) ^ 2 + (dget d "reactive_power_total" 0) ^ 2)
         then min 1 (|dget d "power_total" 0| /
           sqrtQ ((dget d "power_total" 0) ^ 2 + (dget d "reactive_power_total" 0) ^ 2))
         else 1)
       else 1) := by
  unfold calcDerivedValues
  have e1 : ∀ k, k ≠ "voltage_l1_l2" → k ≠ "voltage_l2_l3" → k ≠ "voltage_l3_l1" →
      k ≠ "voltage_l2" → k ≠ "voltage_l3" → k ≠ "power_l1" → k ≠ "power_l2" →
      k ≠ "power_l3" → k ≠ "current_" ++ "l1" → k ≠ "current_" ++ "l2" →
      k ≠ "current_" ++ "l3" →
      dget (calcCurrents (deriveStage2 d (deriveStage1 d))) k 0 = dget d k 0 := by
    intro k n1 n2 n3 n4 n5 n6 n7 n8 n9 n10 n11
    rw [dget_calcCurrents_ne n9 n10 n11, dget_deriveStage2_ne n6 n7 n8,
      dget_deriveStage1_ne n1 n2 n3 n4 n5]
  have ept : dget (calcCurrents (deriveStage2 d (deriveStage1 d))) "power_total" 0
      = dget d "power_total" 0 :=
    e1 _ (by decide) (by decide) (by decide) (by decide) (by decide) (by decide)
      (by decide) (by decide) (by decide) (by decide) (by decide)
  have ert : dget (calcCurrents (deriveStage2 d (deriveStage1 d))) "reactive_power_total" 0
      = dget d "reactive_power_total" 0 :=
    e1 _ (by decide) (by decide) (by decide) (by decide) (by decide) (by decide)
      (by decide) (by decide) (by decide) (by decide) (by decide)
  have epf : dget (calcCurrents (deriveStage2 d (deriveStage1 d))) "power_factor_total" 0
      = dget d "power_factor_total" 0 :=
    e1 _ (by decide) (by decide) (by decide) (by decide) (by decide) (by decide)
      (by decide) (by decide) (by decide) (by decide) (by decide)
  rw [dget_calcPowerFactor_formula _ (ept ▸ ha) (epf ▸ hpf), ept, ert]

/-- A value set with active power 3, reactive power 4 and a zero resolved
power factor. -/
def dPf345 : List (String × ℚ) :=
  [("power_total", 3), ("reactive_power_total", 4), ("power_factor_total", 0)]

theorem C3_witness :
    0 < dget dPf345 "power_total" 0 ∧
    dget dPf345 "power_factor_total" 0 = 0 ∧
    dget dPf345 "reactive_power_total" 0 = 4 ∧
    dget (calcDerivedValues dPf345) "power_factor_total" 0 = 0.6 := by
  have ha : dget dPf345 "power_total" 0 = 3 := by
    norm_num +decide [dPf345, dget, dlookup]
  have hr : dget dPf345 "reactive_power_total" 0 = 4 := by
    norm_num +decide [dPf345, dget, dlookup]
  have hpf : dget dPf345 "power_factor_total" 0 = 0 := by
    norm_num +decide [dPf345, dget, dlookup]
  have h := C3_power_factor_derivation_when_zero dPf345 (by rw [ha]; norm_num) hpf
  refine ⟨by rw [ha]; norm_num, hpf, hr, ?_⟩
  rw [h, ha, hr]
  have hsq : sqrtQ ((3 : ℚ) ^ 2 + (4 : ℚ) ^ 2) = 5 := by
    have h25 : ((3 : ℚ) ^ 2 + (4 : ℚ) ^ 2) = 25 := by norm_num
    rw [h25]
    unfold sqrtQ
    rw [show ((25 : ℚ)).num = 25 from rfl, show ((25 : ℚ)).den = 1 from rfl,
      show Int.toNat 25 = 5 * 5 from rfl, Nat.sqrt_eq, Nat.sqrt_one]
    norm_num
  rw [hsq]
  norm_num

/-- The mapping used for the C3 counterexample: active and reactive power
mapped, the power factor left unmapped. -/
def mPf : List (String × String) :=
  [("power_total", "sensor.pt"), ("reactive_power_total", "sensor.rt")]

/-- The host state store for the C3 counterexample: active power 3,
reactive power 4. -/
def hassPf : Hass := fun eid =>
  if eid = "sensor.pt" then some (.numeric 3)
  else if eid = "sensor.rt" then some (.numeric 4)
  else none

/-- C3 (counterexample): with active power 3 and reactive power 4 mapped
and the power factor unmapped, the resolved power factor is the default
0.95, not 0.6 as the claim asserts. -/
theorem C3_counterexample :
    dget (resolveValues mPf hassPf) "power_total" 0 = 3 ∧
    dget (resolveValues mPf hassPf) "reactive_power_total" 0 = 4 ∧
    dget (getAllRegisterValues mPf hassPf) "power_factor_total" 0 = 0.95 ∧
    (0.95 : ℚ) ≠ 0.6 := by
  have hpt : dlookup (resolveValues mPf hassPf) "power_total" = some 3 := by
    rw [dlookup_resolveValues_eq mPf hassPf (by decide) (by decide)]
    simp +decide [resolvedSpec, resolvedSpecFrom, mPf, hassPf, readVal, parseNum, dlookup]
  have hrt : dlookup (resolveValues mPf hassPf) "reactive_power_total" = some 4 := by
    rw [dlookup_resolveValues_eq mPf hassPf (by decide) (by decide)]
    simp +decide [resolvedSpec, resolvedSpecFrom, mPf, hassPf, readVal, parseNum, dlookup]
  have hpf : dget (resolveValues mPf hassPf) "power_factor_total" 0 = 0.95 := by
    unfold resolveValues dget
    rw [foldl_override_untouched hassPf mPf DEFAULT_VALUES (by decide)]
    norm_num +decide [DEFAULT_VALUES, dlookup]
  refine ⟨by rw [dget, hpt]; rfl, by rw [dget, hrt]; rfl, ?_, by norm_num⟩
  unfold getAllRegisterValues calcDerivedValues
  rw [calcPowerFactor_skip (by
    rw [dget_calcCurrents_ne (by decide) (by decide) (by decide),
      dget_deriveStage2_ne (by decide) (by decide) (by decide),
      dget_deriveStage1_ne (by decide) (by decide) (by decide) (by decide) (by decide),
      hpf]
    norm_num)]
  rw [dget_calcCurrents_ne (by decide) (by decide) (by decide),
    dget_deriveStage2_ne (by decide) (by decide) (by decide),
    dget_deriveStage1_ne (by decide) (by decide) (by decide) (by decide) (by decide),
    hpf]

/-- The engine state touched by one update cycle: the failure flag, the
two value caches (`_current_values`, `_raw_register_values`) and the
register store (`_data_block`). -/
structure EngineState where
  meterFailed : Bool
  currentValues : List (String × ℚ)
  rawRegisterValues : List (String × ℕ)
  registers : ℕ → ℕ

/-- `self._data_block.setValues(address, [word])`. -/
def setRegWord (regs : ℕ → ℕ) (a w : ℕ) : ℕ → ℕ :=
  fun x => if x = a then w else regs x

/-- Whether one required measurement fails the health check
(`_check_meter_health`, lines 313-333): unmapped or empty mapping,
missing or unknown/unavailable state, or a state that does not parse as
a float. -/
def requiredBad (m : List (String × String)) (hass : Hass) (req : String) : Bool :=
  match dlookup m req with
  | none => true
  | some eid =>
      if eid = "" then true
      else
        match hass eid with
        | none => true
        | some sv =>
            if sv = .unknown ∨ sv = .unavailable then true
            else
              match parseNum sv with
              | some _ => false
              | none => true

/-- `_check_meter_health`: the meter should fail when any required entity
is bad. -/
def checkMeterHealth (m : List (String × String)) (hass : Hass) : Bool :=
  REQUIRED_ENTITIES.any (requiredBad m hass)

/-- `_update_single_register` (lines 270-302): encode and write one
register, updating both caches; names outside the catalog are ignored. -/
def updateSingleRegister (s : EngineState) (name : String) (v : ℚ) : EngineState :=
  match dlookup REGISTER_MAP name with
  | none => s
  | some info =>
      { s with
        registers := setRegWord s.registers info.addr (encodeWord info.scale v),
        currentValues := dset s.currentValues name v,
        rawRegisterValues := dset s.rawRegisterValues name (encodeWord info.scale v) }

/-- The publish loop of `_update_registers` (lines 259-260) and of
`_restore_meter_values` (lines 266-268): write every resolved value. -/
def writeAllRegisters (m : List (String × String)) (hass : Hass) (s : EngineState) :
    EngineState :=
  List.foldl (fun st q => updateSingleRegister st q.1 q.2) s (getAllRegisterValues m hass)

/-- `_simulate_meter_failure` (lines 335-345): zero every catalog
register and clear both caches. -/
def simulateMeterFailure (s : EngineState) : EngineState :=
  { s with
    registers := List.foldl (fun r p => setRegWord r p.2.addr 0) s.registers REGISTER_MAP,
    currentValues := [],
    rawRegisterValues := [] }

/-- `_update_registers` (lines 233-260): health gating, failure entry,
recovery (restore then the normal publish of the same cycle), and the
normal publish. -/
def updateRegisters (m : List (String × String)) (hass : Hass) (s : EngineState) :
    EngineState :=
  if checkMeterHealth m hass then
    if s.meterFailed then s
    else simulateMeterFailure { s with meterFailed := true }
  else
    writeAllRegisters m hass
      (if s.meterFailed then writeAllRegisters m hass { s with meterFailed := false } else s)

/-- `get_register_value` (lines 449-452). -/
def getRegisterValue (s : EngineState) (name : String) : Option ℚ :=
  dlookup s.currentValues name

/-- `get_raw_register_value` (lines 454-457). -/
def getRawRegisterValue (s : EngineState) (name : String) : Option ℕ :=
  dlookup s.rawRegisterValues name

theorem catalogKeys_nodup : catalogKeys.Nodup := by decide

theorem catalogAddrs_nodup : (REGISTER_MAP.map (fun p => p.2.addr)).Nodup := by decide

theorem addr_inj {p q : String × RegInfo} (hp : p ∈ REGISTER_MAP) (hq : q ∈ REGISTER_MAP)
    (h : p.2.addr = q.2.addr) : p.1 = q.1 := by
  have := List.inj_on_of_nodup_map catalogAddrs_nodup hp hq h
  rw [this]

theorem writeFold_meterFailed :
    ∀ (vals : List (String × ℚ)) (s : EngineState),
    (List.foldl (fun st q => updateSingleRegister st q.1 q.2) s vals).meterFailed
      = s.meterFailed := by
  intro vals
  induction vals with
  | nil => intro s; rfl
  | cons p rest ih =>
      intro s
      simp only [List.foldl_cons]
      rw [ih]
      unfold updateSingleRegister
      cases dlookup REGISTER_MAP p.1 <;> rfl

theorem writeFold_reg_untouched :
    ∀ (vals : List (String × ℚ)) (s : EngineState) (a : ℕ),
    (∀ p ∈ vals, ∀ info, dlookup REGISTER_MAP p.1 = some info → info.addr ≠ a) →
    (List.foldl (fun st q => updateSingleRegister st q.1 q.2) s vals).registers a
      = s.registers a := by
  intro vals
  induction vals with
  | nil => intro s a _; rfl
  | cons p rest ih =>
      intro s a h
      simp only [List.foldl_cons]
      rw [ih _ _ (fun q hq => h q (List.mem_cons_of_mem _ hq))]
      unfold updateSingleRegister
      cases hlook : dlookup REGISTER_MAP p.1 with
      | none => rfl
      | some info =>
          have hne : info.addr ≠ a := h p (List.mem_cons_self _ _) info hlook
          simp only [setRegWord]
          rw [if_neg (fun hxa => hne hxa.symm)]

theorem writeFold_reg :
    ∀ (vals : List (String × ℚ)) (s : EngineState) (name : String) (info : RegInfo),
    dlookup REGISTER_MAP name = some info →
    (dkeys vals).Nodup →
    name ∈ dkeys vals →
    (∀ p ∈ vals, p.1 ≠ name →
      ∀ info2, dlookup REGISTER_MAP p.1 = some info2 → info2.addr ≠ info.addr) →
    (List.foldl (fun st q => updateSingleRegister st q.1 q.2) s vals).registers info.addr
      = encodeWord info.scale (dget vals name 0) := by
  intro vals
  induction vals with
  | nil => intro s name info _ _ hmem _; simp [dkeys] at hmem
  | cons p rest ih =>
      intro s name info hlook hnd hmem hside
      rw [show dkeys (p :: rest) = p.1 :: dkeys rest from rfl, List.nodup_cons] at hnd
      obtain ⟨hnd1, hnd2⟩ := hnd
      by_cases hp : p.1 = name
      · have hget : dget (p :: rest) name 0 = p.2 := by
          simp [dget, dlookup, hp]
        have hrest : ∀ q ∈ rest, ∀ info2,
            dlookup REGISTER_MAP q.1 = some info2 → info2.addr ≠ info.addr := by
          intro q hq info2 hlook2
          have hqname : q.1 ≠ name := by
            intro hqn
            apply hnd1
            rw [hp, ← hqn]
            exact List.mem_map.mpr ⟨q, hq, rfl⟩
          exact hside q (List.mem_cons_of_mem _ hq) hqname info2 hlook2
        simp only [List.foldl_cons]
        rw [writeFold_reg_untouched rest _ info.addr hrest, hget]
        unfold updateSingleRegister
        rw [hp, hlook]
        simp [setRegWord]
      · have hmem' : name ∈ dkeys rest := by
          rcases (by simpa [dkeys] using hmem) with h1 | h1
          · exact absurd h1.symm hp
          · simpa [dkeys] using h1
        have hget : dget (p :: rest) name 0 = dget rest name 0 := by
          simp [dget, dlookup, hp]
        simp only [List.foldl_cons]
        rw [ih _ name info hlook hnd2 hmem'
          (fun q hq hqn => hside q (List.mem_cons_of_mem _ hq) hqn), hget]

theorem writeAll_registers (m : List (String × String)) (hass : Hass) (s : EngineState)
    {name : String} {info : RegInfo} (hlook : dlookup REGISTER_MAP name = some info) :
    (writeAllRegisters m hass s).registers info.addr
      = encodeWord info.scale (dget (getAllRegisterValues m hass) name 0) := by
  unfold writeAllRegisters
  apply writeFold_reg
  · exact hlook
  · rw [dkeys_getAllRegisterValues, defaultKeys_eq_catalogKeys]
    exact catalogKeys_nodup
  · rw [dkeys_getAllRegisterValues, defaultKeys_eq_catalogKeys]
    exact mem_dkeys_of_dlookup hlook
  · intro p hp hpname info2 hlook2 haddr
    exact hpname (addr_inj (dlookup_mem hlook2) (dlookup_mem hlook) haddr)

theorem zeroFold_untouched :
    ∀ (l : List (String × RegInfo)) (regs : ℕ → ℕ) (a : ℕ),
    a ∉ l.map (fun p => p.2.addr) →
    (List.foldl (fun r p => setRegWord r p.2.addr 0) regs l) a = regs a := by
  intro l
  induction l with
  | nil => intro regs a _; rfl
  | cons p rest ih =>
      intro regs a h
      rw [List.map_cons] at h
      simp only [List.foldl_cons]
      rw [ih _ _ (fun hm => h (List.mem_cons_of_mem _ hm))]
      simp only [setRegWord]
      rw [if_neg (fun hxa => h (by rw [hxa]; exact List.mem_cons_self _ _))]

theorem zeroFold_zero :
    ∀ (l : List (String × RegInfo)) (regs : ℕ → ℕ) (a : ℕ),
    a ∈ l.map (fun p => p.2.addr) →
    (List.foldl (fun r p => setRegWord r p.2.addr 0) regs l) a = 0 := by
  intro l
  induction l with
  | nil => intro regs a h; simp at h
  | cons p rest ih =>
      intro regs a h
      simp only [List.foldl_cons]
      by_cases ha : a ∈ rest.map (fun p => p.2.addr)
      · exact ih _ _ ha
      · have hpa : a = p.2.addr := by
          rw [List.map_cons] at h
          rcases List.mem_cons.mp h with h1 | h1
          · exact h1
          · exact absurd h1 ha
        rw [zeroFold_untouched rest _ a ha]
        simp only [setRegWord]
        rw [if_pos hpa]

/-- C5: when some required measurement's source is unmapped, unavailable
or non-numeric and the meter was healthy, the cycle flips the failure
flag, zeroes every catalog register address, and clears both caches, so
every later lookup returns absent. -/
theorem C5_failure_blanks_registers_and_cache (m : List (String × String))
    (hass : Hass) (s : EngineState)
    (hbad : ∃ req ∈ REQUIRED_ENTITIES, requiredBad m hass req = true)
    (hok : s.meterFailed = false) :
    (updateRegisters m hass s).meterFailed = true ∧
    (∀ name info, dlookup REGISTER_MAP name = some info →
      (updateRegisters m hass s).registers info.addr = 0) ∧
    (updateRegisters m hass s).currentValues = [] ∧
    (updateRegisters m hass s).rawRegisterValues = [] ∧
    (∀ name, getRegisterValue (updateRegisters m hass s) name = none) ∧
    (∀ name, getRawRegisterValue (updateRegisters m hass s) name = none) := by
  have hchk : checkMeterHealth m hass = true := by
    unfold checkMeterHealth
    rw [List.any_eq_true]
    obtain ⟨req, hm, hb⟩ := hbad
    exact ⟨req, hm, hb⟩
  unfold updateRegisters
  rw [if_pos hchk, if_neg (by rw [hok]; exact Bool.false_ne_true)]
  refine ⟨rfl, ?_, rfl, rfl, fun name => rfl, fun name => rfl⟩
  intro name info hlook
  apply zeroFold_zero
  exact List.mem_map.mpr ⟨(name, info), dlookup_mem hlook, rfl⟩

/-- C6: when every required measurement resolves and the meter was
failed, the same cycle clears the failure flag and publishes freshly
resolved, derived and encoded values into the register store. -/
theorem C6_recovery_publishes_same_cycle (m : List (String × String))
    (hass : Hass) (s : EngineState)
    (hgood : checkMeterHealth m hass = false)
    (hfailed : s.meterFailed = true) :
    (updateRegisters m hass s).meterFailed = false ∧
    (∀ name info, dlookup REGISTER_MAP name = some info →
      (updateRegisters m hass s).registers info.addr =
        encodeWord info.scale (dget (getAllRegisterValues m hass) name 0)) := by
  unfold updateRegisters
  rw [if_neg (by rw [hgood]; exact Bool.false_ne_true), if_pos hfailed]
  constructor
  · unfold writeAllRegisters
    rw [writeFold_meterFailed, writeFold_meterFailed]
  · intro name info hlook
    exact writeAll_registers m hass _ hlook

/-- C9: two consecutive healthy cycles over the same mapping and the same
source states write identical words to every catalog register. -/
theorem C9_consecutive_cycles_idempotent (m : List (String × String))
    (hass : Hass) (s : EngineState)
    (hgood : checkMeterHealth m hass = false) :
    ∀ name info, dlookup REGISTER_MAP name = some info →
      (updateRegisters m hass (updateRegisters m hass s)).registers info.addr
        = (updateRegisters m hass s).registers info.addr := by
  intro name info hlook
  have h1 : ∀ s' : EngineState, (updateRegisters m hass s').registers info.addr
      = encodeWord info.scale (dget (getAllRegisterValues m hass) name 0) := by
    intro s'
    unfold updateRegisters
    rw [if_neg (by rw [hgood]; exact Bool.false_ne_true)]
    exact writeAll_registers m hass _ hlook
  rw [h1, h1]

theorem toNat_emod_le (c : ℤ) : (c % 65536).toNat ≤ 65535 := by
  have h1 : c % 65536 < 65536 := Int.emod_lt_of_pos c (by norm_num)
  have h2 : 0 ≤ c % 65536 := Int.emod_nonneg c (by norm_num)
  omega

theorem encodeWord_le (scale v : ℚ) : encodeWord scale v ≤ 65535 :=
  toNat_emod_le _

theorem writeFold_registers_bound :
    ∀ (vals : List (String × ℚ)) (s : EngineState),
    (∀ a, s.registers a ≤ 65535) →
    ∀ a, (List.foldl (fun st q => updateSingleRegister st q.1 q.2) s vals).registers a
      ≤ 65535 := by
  intro vals
  induction vals with
  | nil => intro s h a; exact h a
  | cons p rest ih =>
      intro s h a
      simp only [List.foldl_cons]
      apply ih
      intro b
      unfold updateSingleRegister
      cases dlookup REGISTER_MAP p.1 with
      | none => exact h b
      | some info =>
          simp only [setRegWord]
          split
          · exact encodeWord_le _ _
          · exact h b

theorem writeFold_raw_bound :
    ∀ (vals : List (String × ℚ)) (s : EngineState),
    (∀ p ∈ s.rawRegisterValues, p.2 ≤ 65535) →
    ∀ p ∈ (List.foldl (fun st q => updateSingleRegister st q.1 q.2) s vals).rawRegisterValues,
      p.2 ≤ 65535 := by
  intro vals
  induction vals with
  | nil => intro s h p hp; exact h p hp
  | cons q rest ih =>
      intro s h p hp
      refine ih _ ?_ p (by simpa only [List.foldl_cons] using hp)
      intro r hr
      unfold updateSingleRegister at hr
      cases hlook : dlookup REGISTER_MAP q.1 with
      | none => rw [hlook] at hr; exact h r hr
      | some info =>
          rw [hlook] at hr
          rcases mem_dset r hr with h1 | h1
          · exact h r h1
          · rw [h1]
            exact encodeWord_le _ _

theorem zeroFold_bound :
    ∀ (l : List (String × RegInfo)) (regs : ℕ → ℕ),
    (∀ a, regs a ≤ 65535) →
    ∀ a, (List.foldl (fun r p => setRegWord r p.2.addr 0) regs l) a ≤ 65535 := by
  intro l
  induction l with
  | nil => intro regs h a; exact h a
  | cons p rest ih =>
      intro regs h a
      simp only [List.foldl_cons]
      apply ih
      intro b
      simp only [setRegWord]
      split
      · exact Nat.zero_le _
      · exact h b

/-- C10: the encoder always produces a word in [0, 65535] (the mask to 16
bits), and an update cycle keeps every register word and every cached raw
value in [0, 65535]. -/
theorem C10_written_words_are_16_bit :
    (∀ scale v : ℚ, encodeWord scale v ≤ 65535) ∧
    (∀ (m : List (String × String)) (hass : Hass) (s : EngineState),
      ((∀ a, s.registers a ≤ 65535) →
        ∀ a, (updateRegisters m hass s).registers a ≤ 65535) ∧
      ((∀ p ∈ s.rawRegisterValues, p.2 ≤ 65535) →
        ∀ p ∈ (updateRegisters m hass s).rawRegisterValues, p.2 ≤ 65535)) := by
  refine ⟨encodeWord_le, ?_⟩
  intro m hass s
  constructor
  · intro h a
    unfold updateRegisters
    split
    · split
      · exact h a
      · exact zeroFold_bound REGISTER_MAP _ h a
    · unfold writeAllRegisters
      apply writeFold_registers_bound
      intro b
      split
      · apply writeFold_registers_bound
        intro c
        exact h c
      · exact h b
  · intro h p hp
    unfold updateRegisters at hp
    revert hp
    split
    · split
      · exact fun hp => h p hp
      · intro hp
        simp [simulateMeterFailure] at hp
    · intro hp
      unfold writeAllRegisters at hp
      refine writeFold_raw_bound _ _ ?_ p hp
      intro r hr
      revert hr
      split
      · exact fun hr => writeFold_raw_bound _ { s with meterFailed := false }
          (fun q hq => h q hq) r hr
      · exact fun hr => h r hr

/-- A fresh, healthy engine state: empty caches, all register words 0. -/
def sInit : EngineState := ⟨false, [], [], fun _ => 0⟩

/-- A failed engine state, as left behind by a failure cycle. -/
def sFailed : EngineState := ⟨true, [], [], fun _ => 0⟩

theorem C5_witness :
    (updateRegisters mHealthy hassDown sInit).meterFailed = true ∧
    (updateRegisters mHealthy hassDown sInit).registers 0x850 = 0 ∧
    getRegisterValue (updateRegisters mHealthy hassDown sInit) "power_total" = none ∧
    getRawRegisterValue (updateRegisters mHealthy hassDown sInit) "frequency" = none := by
  have h := C5_failure_blanks_registers_and_cache mHealthy hassDown sInit
    ⟨"voltage_l1", by decide, by decide⟩ rfl
  exact ⟨h.1, h.2.1 "power_total" ⟨0x850, 0.001, "kW"⟩ rfl,
    h.2.2.2.2.1 "power_total", h.2.2.2.2.2 "frequency"⟩

theorem C6_witness :
    checkMeterHealth mHealthy hassHealthy = false ∧
    (updateRegisters mHealthy hassHealthy sFailed).meterFailed = false ∧
    (updateRegisters mHealthy hassHealthy sFailed).registers 0x850 = 9000 := by
  have h := C6_recovery_publishes_same_cycle mHealthy hassHealthy sFailed (by decide) rfl
  refine ⟨by decide, h.1, ?_⟩
  have h2 := h.2 "power_total" ⟨0x850, 0.001, "kW"⟩ rfl
  have hv : dget (getAllRegisterValues mHealthy hassHealthy) "power_total" 0 = 9 := by
    unfold getAllRegisterValues calcDerivedValues
    rw [dget_calcPowerFactor_ne (by decide),
      dget_calcCurrents_ne (by decide) (by decide) (by decide),
      dget_deriveStage2_ne (by decide) (by decide) (by decide),
      dget_deriveStage1_ne (by decide) (by decide) (by decide) (by decide) (by decide)]
    unfold dget
    rw [dlookup_resolveValues_eq mHealthy hassHealthy (by decide) (by decide)]
    simp +decide [resolvedSpec, resolvedSpecFrom, mHealthy, hassHealthy, readVal,
      parseNum, dlookup]
  rw [hv] at h2
  rw [show (updateRegisters mHealthy hassHealthy sFailed).registers 0x850
      = encodeWord (0.001 : ℚ) 9 from h2]
  norm_num [encodeWord, pyRound]
  decide

theorem C9_witness :
    (updateRegisters mHealthy hassHealthy
        (updateRegisters mHealthy hassHealthy sInit)).registers 0x850
      = (updateRegisters mHealthy hassHealthy sInit).registers 0x850 :=
  C9_consecutive_cycles_idempotent mHealthy hassHealthy sInit (by decide)
    "power_total" ⟨0x850, 0.001, "kW"⟩ rfl

theorem C10_witness :
    encodeWord 0.001 (-5) ≤ 65535 ∧
    (∀ a, (updateRegisters mHealthy hassHealthy sInit).registers a ≤ 65535) := by
  have h := C10_written_words_are_16_bit
  exact ⟨h.1 0.001 (-5), (h.2 mHealthy hassHealthy sInit).1 (fun _ => Nat.zero_le _)⟩

/-- Outcome of one tick of `_periodic_update`: `_update_registers`
returned normally, or raised an unhandled error. -/
inductive TickResult where
  | ok
  | err
deriving DecidableEq

/-- The error-handling loop of `_periodic_update` (lines 197-231), run
over a given sequence of tick outcomes from a given error count and
backoff delay.  Returns the final error count, the final backoff delay,
and whether the loop stopped fatally (the `error_count >= max_errors`
break).  On success the count resets to 0 and the delay to the update
interval; on a non-fatal error the delay becomes min(delay × 1.5, 60). -/
def periodicUpdate (interval : ℚ) : List TickResult → ℕ → ℚ → ℕ × ℚ × Bool
  | [], ec, b => (ec, b, false)
  | .ok :: rest, _, _ => periodicUpdate interval rest 0 interval
  | .err :: rest, ec, b =>
      if 10 ≤ ec + 1 then (ec + 1, b, true)
      else periodicUpdate interval rest (ec + 1) (min (b * 1.5) 60)

theorem periodicUpdate_fatal (i : ℚ) :
    ∀ (k ec : ℕ) (b : ℚ), ec + k = 10 → 1 ≤ k →
    (periodicUpdate i (List.replicate k TickResult.err) ec b).2.2 = true := by
  intro k
  induction k with
  | zero => intro ec b h h1; omega
  | succ n ih =>
      intro ec b h _
      rw [List.replicate_succ]
      by_cases hn : n = 0
      · subst hn
        simp only [periodicUpdate]
        rw [if_pos (by omega)]
      · simp only [periodicUpdate]
        rw [if_neg (by omega)]
        exact ih (ec + 1) _ (by omega) (by omega)

theorem periodicUpdate_reset (i : ℚ) :
    ∀ (k ec : ℕ) (b : ℚ), ec + k ≤ 9 →
    periodicUpdate i (List.replicate k TickResult.err ++ [TickResult.ok]) ec b
      = (0, i, false) := by
  intro k
  induction k with
  | zero =>
      intro ec b _
      simp only [List.replicate, List.nil_append, periodicUpdate]
  | succ n ih =>
      intro ec b h
      rw [List.replicate_succ, List.cons_append]
      simp only [periodicUpdate]
      rw [if_neg (by omega)]
      exact ih (ec + 1) _ (by omega)

/-- C7: an error tick increments the consecutive-error counter and, when
the maximum of 10 is not yet reached, multiplies the backoff delay by 1.5
capped at 60 before the next attempt; a successful tick resets counter
and delay to baseline; the 10th consecutive error stops the loop fatally,
while 9 errors followed by a success reset everything. -/
theorem C7_scheduler_backoff_policy (i : ℚ) (rest : List TickResult) :
    (∀ ec b, ec + 1 < 10 →
      periodicUpdate i (TickResult.err :: rest) ec b
        = periodicUpdate i rest (ec + 1) (min (b * 1.5) 60)) ∧
    (∀ ec b, 10 ≤ ec + 1 →
      periodicUpdate i (TickResult.err :: rest) ec b = (ec + 1, b, true)) ∧
    (∀ ec b, periodicUpdate i (TickResult.ok :: rest) ec b
      = periodicUpdate i rest 0 i) ∧
    (periodicUpdate i (List.replicate 10 TickResult.err) 0 i).2.2 = true ∧
    periodicUpdate i (List.replicate 9 TickResult.err ++ [TickResult.ok]) 0 i
      = (0, i, false) := by
  refine ⟨?_, ?_, ?_, ?_, ?_⟩
  · intro ec b h
    simp only [periodicUpdate]
    rw [if_neg (by omega)]
  · intro ec b h
    simp only [periodicUpdate]
    rw [if_pos h]
  · intro ec b
    simp only [periodicUpdate]
  · exact periodicUpdate_fatal i 10 0 i (by norm_num) (by norm_num)
  · exact periodicUpdate_reset i 9 0 i (by norm_num)

theorem C7_witness :
    periodicUpdate 5 [TickResult.err] 0 5
      = periodicUpdate 5 [] 1 (min ((5 : ℚ) * 1.5) 60) ∧
    periodicUpdate 5 [TickResult.err] 9 60 = (10, 60, true) ∧
    periodicUpdate 5 [TickResult.ok] 7 60 = periodicUpdate 5 [] 0 5 ∧
    (periodicUpdate 5 (List.replicate 10 TickResult.err) 0 5).2.2 = true ∧
    periodicUpdate 5 (List.replicate 9 TickResult.err ++ [TickResult.ok]) 0 5
      = (0, 5, false) := by
  have h := C7_scheduler_backoff_policy 5 []
  exact ⟨h.1 0 5 (by norm_num), h.2.1 9 60 (by norm_num), h.2.2.1 7 60,
    h.2.2.2.1, h.2.2.2.2⟩

/-- Decoding of a 16-bit register word, as the spec's testable property
describes it: interpret the word as signed two's complement and multiply
by the scale. -/
def decodeWord (w : ℕ) (scale : ℚ) : ℚ :=
  (if 32768 ≤ w then (w : ℚ) - 65536 else (w : ℚ)) * scale

theorem pyRound_sub_le (q : ℚ) : |(pyRound q : ℚ) - q| ≤ 1/2 := by
  simp only [pyRound]
  have h0 : (⌊q⌋ : ℚ) ≤ q := Int.floor_le q
  have h1 : q < ⌊q⌋ + 1 := Int.lt_floor_add_one q
  by_cases hlt : q - ⌊q⌋ < 1/2
  · rw [if_pos hlt, abs_le]
    constructor <;> linarith
  · rw [if_neg hlt]
    by_cases hgt : 1/2 < q - ⌊q⌋
    · rw [if_pos hgt]
      push_cast
      rw [abs_le]
      constructor <;> linarith
    · rw [if_neg hgt]
      have heq : q - ⌊q⌋ = 1/2 := le_antisymm (not_lt.mp hgt) (not_lt.mp hlt)
      by_cases hpar : ⌊q⌋ % 2 = 0
      · rw [if_pos hpar, abs_le]
        constructor <;> linarith
      · rw [if_neg hpar]
        push_cast
        rw [abs_le]
        constructor <;> linarith

theorem decode_encode (scale v : ℚ) (hs : scale ≠ 0)
    (hlo : -32768 ≤ pyRound (v / scale)) (hhi : pyRound (v / scale) ≤ 32767) :
    decodeWord (encodeWord scale v) scale = (pyRound (v / scale) : ℚ) * scale := by
  simp only [encodeWord, decodeWord]
  rw [if_pos hs]
  by_cases hneg : pyRound (v / scale) < 0
  · rw [if_pos hneg, max_eq_right hlo]
    have hc0 : (0 : ℤ) ≤ 65536 + pyRound (v / scale) := by omega
    have hc1 : 65536 + pyRound (v / scale) < 65536 := by omega
    rw [Int.emod_eq_of_lt hc0 hc1]
    rw [if_pos (by omega : 32768 ≤ (65536 + pyRound (v / scale)).toNat)]
    have hcast : (((65536 + pyRound (v / scale)).toNat : ℕ) : ℚ)
        = (pyRound (v / scale) : ℚ) + 65536 := by
      have h' : ((65536 + pyRound (v / scale)).toNat : ℤ)
          = 65536 + pyRound (v / scale) := Int.toNat_of_nonneg hc0
      have h'' := congrArg (fun z : ℤ => (z : ℚ)) h'
      push_cast at h''
      linarith
    rw [hcast]
    ring
  · rw [if_neg hneg, min_eq_right hhi]
    have hc0 : (0 : ℤ) ≤ pyRound (v / scale) := by omega
    have hc1 : pyRound (v / scale) < 65536 := by omega
    rw [Int.emod_eq_of_lt hc0 hc1]
    rw [if_neg (by omega : ¬ 32768 ≤ (pyRound (v / scale)).toNat)]
    have hcast : (((pyRound (v / scale)).toNat : ℕ) : ℚ) = (pyRound (v / scale) : ℚ) := by
      have h' : ((pyRound (v / scale)).toNat : ℤ) = pyRound (v / scale) :=
        Int.toNat_of_nonneg hc0
      exact_mod_cast congrArg (fun z : ℤ => (z : ℚ)) h'
    rw [hcast]

theorem scaleOf_pos {name : String} (hname : name ∈ catalogKeys) :
    0 < scaleOf name := by
  fin_cases hname <;> norm_num +decide [scaleOf, REGISTER_MAP, dlookup]

/-- C8: for every catalog scale, decoding the encoded word (signed 16-bit
interpretation times the scale) recovers the physical value to within one
unit of the scale's resolution, whenever the scaled value rounds into the
signed 16-bit range. -/
theorem C8_decode_encode_roundtrip (name : String) (v : ℚ)
    (hname : name ∈ catalogKeys)
    (hlo : -32768 ≤ pyRound (v / scaleOf name))
    (hhi : pyRound (v / scaleOf name) ≤ 32767) :
    |decodeWord (encodeWord (scaleOf name) v) (scaleOf name) - v| ≤ scaleOf name := by
  have hpos : 0 < scaleOf name := scaleOf_pos hname
  have hs : scaleOf name ≠ 0 := ne_of_gt hpos
  rw [decode_encode _ _ hs hlo hhi]
  have hv : (v / scaleOf name) * scaleOf name = v := div_mul_cancel₀ v hs
  have hstep : (pyRound (v / scaleOf name) : ℚ) * scaleOf name - v
      = ((pyRound (v / scaleOf name) : ℚ) - v / scaleOf name) * scaleOf name := by
    rw [sub_mul, hv]
  rw [hstep, abs_mul, abs_of_pos hpos]
  have hb := pyRound_sub_le (v / scaleOf name)
  have h1 : |(pyRound (v / scaleOf name) : ℚ) - v / scaleOf name| * scaleOf name
      ≤ (1/2) * scaleOf name := mul_le_mul_of_nonneg_right hb (le_of_lt hpos)
  linarith

theorem C8_witness :
    "voltage_l1" ∈ catalogKeys ∧
    -32768 ≤ pyRound (230 / scaleOf "voltage_l1") ∧
    pyRound (230 / scaleOf "voltage_l1") ≤ 32767 ∧
    |decodeWord (encodeWord (scaleOf "voltage_l1") 230) (scaleOf "voltage_l1") - 230|
      ≤ scaleOf "voltage_l1" := by
  have hscale : scaleOf "voltage_l1" = 0.1 := by
    norm_num +decide [scaleOf, REGISTER_MAP, dlookup]
  have hround : pyRound ((230 : ℚ) / 0.1) = 2300 := by
    norm_num [pyRound]
  have hlo : -32768 ≤ pyRound (230 / scaleOf "voltage_l1") := by
    rw [hscale, hround]; norm_num
  have hhi : pyRound (230 / scaleOf "voltage_l1") ≤ 32767 := by
    rw [hscale, hround]; norm_num
  exact ⟨by decide, hlo, hhi, C8_decode_encode_roundtrip "voltage_l1" 230 (by decide) hlo hhi⟩

end DTSU666
